import Mathlib

/-!
# Verification of the Airbnb data-cleansing pipeline

Shallow embedding of `Solutions/ML 01 - Data Cleansing.py`: a linear
dataframe pipeline that loads a CSV of rental listings, projects a fixed
column list, normalizes the `price` column (strip `$`/`,`, cast to double),
filters non-positive prices and `minimum_nights > 365`, casts the integer
columns to double, appends `<col>_na` missing-value flags for a fixed set of
columns, median-imputes those columns, and writes the result (overwrite).

Dataframes are modelled as a schema (name/type pairs) plus rows given as
association lists from column name to value.  Doubles are modelled as `ℚ`.
SQL three-valued logic is modelled by making comparisons with `null` (or a
non-numeric value) evaluate to `false`, so that filters drop such rows, as
Spark's `filter` keeps only rows whose predicate is `true`.
-/

/-- Column types, as inferred by the CSV loader. -/
inductive DType where
  | TString
  | TInt
  | TDouble
deriving DecidableEq, Repr

/-- A cell value.  `vnull` is SQL null; doubles are modelled as `ℚ`. -/
inductive Value where
  | vnull
  | vstr (s : String)
  | vint (n : Int)
  | vdbl (q : ℚ)
deriving DecidableEq, Repr

/-- A row: an association list from column name to value. -/
abbrev Row : Type := List (String × Value)

/-- Look up the first binding of a key in an association list. -/
def getKV {β : Type} : List (String × β) → String → Option β
  | [], _ => none
  | (n', b) :: rest, n => if n' = n then some b else getKV rest n

/-- Replace the first binding of a key (keeping its position), or append a
new binding at the end when the key is absent — the behaviour of Spark's
`withColumn` on columns and of schema update. -/
def setKV {β : Type} : List (String × β) → String → β → List (String × β)
  | [], n, b => [(n, b)]
  | (n', b') :: rest, n, b =>
      if n' = n then (n, b) :: rest else (n', b') :: setKV rest n b

/-- Value of a column in a row (`vnull` when the column is absent). -/
def getVal (r : Row) (c : String) : Value :=
  (getKV r c).getD Value.vnull

/-- A dataframe: a schema and a list of rows. -/
structure DataFrame where
  schema : List (String × DType)
  rows : List Row
deriving DecidableEq, Repr

/-- Selection: `df.select cols` restricts to the listed columns, in order.  Fails (like
Spark's `AnalysisException`, the spec's SchemaError) if a column is absent. -/
def DataFrame.select (df : DataFrame) (cols : List String) : Option DataFrame :=
  if cols.all (fun c => (getKV df.schema c).isSome) then
    some ⟨cols.map (fun c => (c, (getKV df.schema c).getD DType.TString)),
          df.rows.map (fun r => cols.map (fun c => (c, getVal r c)))⟩
  else none

/-- Column rewrite: `df.withColumn c t f` recomputes column `c` from each row (replacing it
in place when present, appending it otherwise), with result type `t`. -/
def DataFrame.withColumn (df : DataFrame) (c : String) (t : DType)
    (f : Row → Value) : DataFrame :=
  ⟨setKV df.schema c t, df.rows.map (fun r => setKV r c (f r))⟩

/-- Filtering: `df.filterRows p` keeps the rows whose predicate is `true`. -/
def DataFrame.filterRows (df : DataFrame) (p : Row → Bool) : DataFrame :=
  ⟨df.schema, df.rows.filter p⟩

/-- Is a value SQL null? -/
def isNullVal : Value → Bool
  | Value.vnull => true
  | _ => false

/-- Numeric content of a value, when it has one. -/
def numVal : Value → Option ℚ
  | Value.vint n => some (n : ℚ)
  | Value.vdbl q => some q
  | _ => none

/-- Comparison `v > q` under SQL three-valued logic: `true` only for a numeric value
strictly greater than `q` (null or non-numeric compares to not-true). -/
def vGT (v : Value) (q : ℚ) : Bool :=
  match numVal v with
  | some x => decide (q < x)
  | none => false

/-- Comparison `v ≤ q` under SQL three-valued logic (null or non-numeric is not-true). -/
def vLE (v : Value) (q : ℚ) : Bool :=
  match numVal v with
  | some x => decide (x ≤ q)
  | none => false

/-- Spark's `translate(price, "$,", "")` with an empty replacement string: delete
every occurrence of `$` and `,`. -/
def stripDollarComma (s : String) : String :=
  String.mk (s.data.filter (fun ch => ch ≠ '$' ∧ ch ≠ ','))

/-- Value of a decimal digit string, most significant first. -/
def digitsToNat (cs : List Char) : Nat :=
  cs.foldl (fun n c => n * 10 + (c.toNat - 48)) 0

/-- Parse an unsigned decimal numeral, with an optional fractional part. -/
def parseUnsigned (cs : List Char) : Option ℚ :=
  match cs.splitOn '.' with
  | [w] =>
      if w ≠ [] ∧ w.all Char.isDigit then some (digitsToNat w : ℚ) else none
  | [w, f] =>
      if w ++ f ≠ [] ∧ w.all Char.isDigit ∧ f.all Char.isDigit then
        some (mkRat (digitsToNat (w ++ f) : Int) (10 ^ f.length))
      else none
  | _ => none

/-- ASCII whitespace, for trimming before the numeric parse. -/
def isSpaceChar (c : Char) : Bool :=
  c = ' ' ∨ c = '\t' ∨ c = '\n' ∨ c = '\r'

/-- Drop leading and trailing whitespace characters. -/
def trimChars (cs : List Char) : List Char :=
  ((cs.dropWhile isSpaceChar).reverse.dropWhile isSpaceChar).reverse

/-- Parse a decimal numeral with optional sign and surrounding whitespace,
as Spark's string-to-double cast does; `none` for non-numeric text. -/
def parseDouble (s : String) : Option ℚ :=
  match trimChars s.data with
  | '-' :: rest => (parseUnsigned rest).map (fun q => -q)
  | '+' :: rest => parseUnsigned rest
  | cs => parseUnsigned cs

/-- Spark's permissive `cast("double")` on a value: null stays null, a
string parses to a double or becomes null, an int widens, a double stays. -/
def castDouble : Value → Value
  | Value.vnull => Value.vnull
  | Value.vstr s =>
      match parseDouble s with
      | some q => Value.vdbl q
      | none => Value.vnull
  | Value.vint n => Value.vdbl (n : ℚ)
  | Value.vdbl q => Value.vdbl q

/-- Spark's `translate(col, "$,", "")` at value level: null passes through, strings
lose their `$` and `,` characters; a numeric value renders without either
character, so translation leaves it unchanged. -/
def translateDollarComma : Value → Value
  | Value.vnull => Value.vnull
  | Value.vstr s => Value.vstr (stripDollarComma s)
  | v => v

/-- The whole price-normalization expression:
`translate(col("price"), "$,", "").cast("double")` applied to one value. -/
def priceNormalize (v : Value) : Value :=
  castDouble (translateDollarComma v)

/-- Constant `columns_to_keep` from the notebook: the projection whitelist. -/
def columns_to_keep : List String := [
  "host_is_superhost",
  "cancellation_policy",
  "instant_bookable",
  "host_total_listings_count",
  "neighbourhood_cleansed",
  "latitude",
  "longitude",
  "property_type",
  "room_type",
  "accommodates",
  "bathrooms",
  "bedrooms",
  "beds",
  "bed_type",
  "minimum_nights",
  "number_of_reviews",
  "review_scores_rating",
  "review_scores_accuracy",
  "review_scores_cleanliness",
  "review_scores_checkin",
  "review_scores_communication",
  "review_scores_location",
  "review_scores_value",
  "price"
]

/-- Stage `fixed_price_df = base_df.withColumn("price",
translate(col("price"), "$,", "").cast("double"))`. -/
def fixed_price_df (df : DataFrame) : DataFrame :=
  df.withColumn "price" DType.TDouble (fun r => priceNormalize (getVal r "price"))

/-- The filter expression `col("price") > 0`. -/
def pricePred (r : Row) : Bool := vGT (getVal r "price") 0

/-- Stage `pos_prices_df = fixed_price_df.filter(col("price") > 0)`. -/
def pos_prices_df (df : DataFrame) : DataFrame :=
  df.filterRows pricePred

/-- The filter expression `col("minimum_nights") <= 365`. -/
def minNightsPred (r : Row) : Bool := vLE (getVal r "minimum_nights") 365

/-- Stage `min_nights_df = pos_prices_df.filter(col("minimum_nights") <= 365)`. -/
def min_nights_df (df : DataFrame) : DataFrame :=
  df.filterRows minNightsPred

/-- Constant `integer_columns = [x.name for x in df.schema.fields
if x.dataType == IntegerType()]` — computed from the current schema. -/
def integer_columns (df : DataFrame) : List String :=
  (df.schema.filter (fun p => p.2 = DType.TInt)).map Prod.fst

/-- The `doubles_df` loop: `for c in integer_columns:
doubles_df = doubles_df.withColumn(c, col(c).cast("double"))`. -/
def castIntegerColumns (df : DataFrame) : DataFrame :=
  (integer_columns df).foldl
    (fun d c => d.withColumn c DType.TDouble (fun r => castDouble (getVal r c)))
    df

/-- Constant `impute_cols` from the notebook: the columns slated for imputation. -/
def impute_cols : List String := [
  "bedrooms",
  "bathrooms",
  "beds",
  "review_scores_rating",
  "review_scores_accuracy",
  "review_scores_cleanliness",
  "review_scores_checkin",
  "review_scores_communication",
  "review_scores_location",
  "review_scores_value"
]

/-- The `_na` loop: `for c in impute_cols: doubles_df =
doubles_df.withColumn(c + "_na", when(col(c).isNull(), 1.0).otherwise(0.0))`. -/
def addNaFlags (df : DataFrame) : DataFrame :=
  impute_cols.foldl
    (fun d c => d.withColumn (c ++ "_na") DType.TDouble
      (fun r => if isNullVal (getVal r c) then Value.vdbl 1 else Value.vdbl 0))
    df

/-- Insertion into a list sorted in nondecreasing order. -/
def insertSorted (x : ℚ) : List ℚ → List ℚ
  | [] => [x]
  | y :: ys => if x ≤ y then x :: y :: ys else y :: insertSorted x ys

/-- Insertion sort, nondecreasing. -/
def sortQ (xs : List ℚ) : List ℚ := xs.foldr insertSorted []

/-- Median of a list of rationals (lower median for even length); `none`
when the list is empty, i.e. the statistic is undefined. -/
def median (xs : List ℚ) : Option ℚ :=
  (sortQ xs).get? ((xs.length - 1) / 2)

/-- The numeric, non-missing values of a column over a dataframe's rows. -/
def colNonNull (df : DataFrame) (c : String) : List ℚ :=
  df.rows.filterMap (fun r => numVal (getVal r c))

/-- Modelled from the spec: the fit phase of SparkML's
`Imputer(strategy="median", inputCols=impute_cols, outputCols=impute_cols)`
(the estimator's own code is external to this repository).  "For each column
in `impute_cols`, compute the median of the non-missing values over the
entire (outlier-filtered) dataset"; it fails when a column has zero
non-missing values (the median is undefined). -/
def imputerFit (df : DataFrame) : List String → Option (List (String × ℚ))
  | [] => some []
  | c :: cs =>
      match median (colNonNull df c), imputerFit df cs with
      | some m, some ms => some ((c, m) :: ms)
      | _, _ => none

/-- Modelled from the spec: the transform phase of the fitted Imputer.
"Replace every missing value in each of those columns with that column's
fitted median; non-missing values pass through unchanged", writing each
output column over the input column of the same name. -/
def imputerTransform (ms : List (String × ℚ)) (df : DataFrame) : DataFrame :=
  ms.foldl
    (fun d cm => d.withColumn cm.1 DType.TDouble
      (fun r =>
        match getVal r cm.1 with
        | Value.vnull => Value.vdbl cm.2
        | v => v))
    df

/-- The whole pipeline from the loaded dataframe to `imputed_df` (the final,
post-imputation, pre-write dataset): projection, price normalization, the
two outlier filters, the integer-to-double loop, the `_na` loop, and the
median imputer. -/
def pipeline (raw : DataFrame) : Option DataFrame :=
  match raw.select columns_to_keep with
  | none => none
  | some b =>
      let d := addNaFlags (castIntegerColumns
        (min_nights_df (pos_prices_df (fixed_price_df b))))
      match imputerFit d impute_cols with
      | none => none
      | some ms => some (imputerTransform ms d)

/-- Writer stage `imputed_df.write.format("delta").mode("overwrite").save(working_dir)`:
an overwrite-mode write wholly replaces the prior content of the location. -/
def writeDelta (_prior : Option DataFrame) (df : DataFrame) : Option DataFrame :=
  some df

/-- One run of the notebook job against a storage location: clean the raw
input and overwrite the location with the result (failing runs leave the
location untouched). -/
def runPipeline (raw : DataFrame) (store : Option DataFrame) :
    Option (Option DataFrame) :=
  (pipeline raw).map (fun out => writeDelta store out)

/-! ## Concrete test inputs

A synthetic raw dataframe in the shape the loader infers for the Airbnb
CSV: the 24 kept columns plus one extra (`id`), with `price` inferred as
string and `minimum_nights` as integer.  Used for the spec's end-to-end
scenario and boundary checks. -/

/-- Schema of the synthetic raw input (an `id` column plus the 24 kept
columns, with the loader's inferred types). -/
def rawSchema : List (String × DType) := [
  ("id", DType.TInt),
  ("host_is_superhost", DType.TString),
  ("cancellation_policy", DType.TString),
  ("instant_bookable", DType.TString),
  ("host_total_listings_count", DType.TInt),
  ("neighbourhood_cleansed", DType.TString),
  ("latitude", DType.TDouble),
  ("longitude", DType.TDouble),
  ("property_type", DType.TString),
  ("room_type", DType.TString),
  ("accommodates", DType.TInt),
  ("bathrooms", DType.TDouble),
  ("bedrooms", DType.TDouble),
  ("beds", DType.TDouble),
  ("bed_type", DType.TString),
  ("minimum_nights", DType.TInt),
  ("number_of_reviews", DType.TInt),
  ("review_scores_rating", DType.TDouble),
  ("review_scores_accuracy", DType.TDouble),
  ("review_scores_cleanliness", DType.TDouble),
  ("review_scores_checkin", DType.TDouble),
  ("review_scores_communication", DType.TDouble),
  ("review_scores_location", DType.TDouble),
  ("review_scores_value", DType.TDouble),
  ("price", DType.TString)
]

/-- A synthetic listing row with a given `id`, price text and
`minimum_nights`; every other column holds a fixed non-null value. -/
def mkListing (i : Int) (p : String) (mn : Int) : Row := [
  ("id", Value.vint i),
  ("host_is_superhost", Value.vstr "t"),
  ("cancellation_policy", Value.vstr "moderate"),
  ("instant_bookable", Value.vstr "t"),
  ("host_total_listings_count", Value.vint 1),
  ("neighbourhood_cleansed", Value.vstr "Mission"),
  ("latitude", Value.vdbl 37),
  ("longitude", Value.vdbl (-122)),
  ("property_type", Value.vstr "Apartment"),
  ("room_type", Value.vstr "Private"),
  ("accommodates", Value.vint 2),
  ("bathrooms", Value.vdbl 1),
  ("bedrooms", Value.vdbl 1),
  ("beds", Value.vdbl 1),
  ("bed_type", Value.vstr "Real Bed"),
  ("minimum_nights", Value.vint mn),
  ("number_of_reviews", Value.vint 10),
  ("review_scores_rating", Value.vdbl 95),
  ("review_scores_accuracy", Value.vdbl 9),
  ("review_scores_cleanliness", Value.vdbl 9),
  ("review_scores_checkin", Value.vdbl 10),
  ("review_scores_communication", Value.vdbl 10),
  ("review_scores_location", Value.vdbl 9),
  ("review_scores_value", Value.vdbl 9),
  ("price", Value.vstr p)
]

/-- The spec's 5-row end-to-end scenario: prices
`["$100", "$0", "$50", "free", "$75"]`, minimum nights `[1, 2, 400, 5, 3]`. -/
def raw5 : DataFrame :=
  ⟨rawSchema, [mkListing 1 "$100" 1, mkListing 2 "$0" 2, mkListing 3 "$50" 400,
               mkListing 4 "free" 5, mkListing 5 "$75" 3]⟩

/-- A two-row input whose first row sits exactly at the `minimum_nights`
threshold 365 (the second row is an ordinary listing, so that the imputer
has data to fit on either way). -/
def rawAt365 : DataFrame :=
  ⟨rawSchema, [mkListing 1 "$100" 365, mkListing 2 "$80" 1]⟩

/-- The same input with the first row just over the threshold, at 366. -/
def rawAt366 : DataFrame :=
  ⟨rawSchema, [mkListing 1 "$100" 366, mkListing 2 "$80" 1]⟩

/-- The empty dataframe, used as a default when destructuring options. -/
def emptyDF : DataFrame := ⟨[], []⟩

/-- The final dataset the pipeline produces for `raw5`. -/
def out5 : DataFrame := (pipeline raw5).getD emptyDF

/-- The final dataset the pipeline produces for `rawAt365`. -/
def out365 : DataFrame := (pipeline rawAt365).getD emptyDF

/-! ## Stage order

The notebook's processing steps and the order its cells apply them,
transcribed from the source: `raw_df` (load), `base_df = raw_df.select`
(project), `fixed_price_df` (price cast), `pos_prices_df` (price filter),
`min_nights_df` (minimum-stay filter), the `doubles_df` integer-cast loop,
the `_na` loop, the imputer, and the Delta write. -/

/-- One processing step of the notebook. -/
inductive Stage where
  | loader
  | projector
  | priceCast
  | posPriceFilter
  | minNightsFilter
  | intCast
  | naFlag
  | imputeStage
  | writer
deriving DecidableEq, Repr, BEq

/-- The order in which the notebook applies its stages (source order). -/
def notebookStageOrder : List Stage := [
  Stage.loader, Stage.projector, Stage.priceCast, Stage.posPriceFilter,
  Stage.minNightsFilter, Stage.intCast, Stage.naFlag, Stage.imputeStage,
  Stage.writer]

/-- Position of a stage in the notebook's order. -/
def stagePos (s : Stage) : Nat := notebookStageOrder.indexOf s

/-- The spec's claimed staging, following its words: type normalization —
comprising both the price-cast rule and the integer-to-double rule — is
complete before either outlier-filter predicate is applied. -/
def filtersAfterFullNormalization : Prop :=
  stagePos Stage.priceCast < stagePos Stage.posPriceFilter ∧
  stagePos Stage.priceCast < stagePos Stage.minNightsFilter ∧
  stagePos Stage.intCast < stagePos Stage.posPriceFilter ∧
  stagePos Stage.intCast < stagePos Stage.minNightsFilter

/-- The invariant the outlier filter establishes on a row: the price is a
number strictly greater than 0 and `minimum_nights` is a number at most
365 (both under SQL three-valued logic, so neither can be null). -/
def rowInv (r : Row) : Prop :=
  pricePred r = true ∧ minNightsPred r = true

/-- A row whose `minimum_nights` is null, and a tiny dataframe holding it,
for exercising the minimum-stay filter on missing values. -/
def rowNullMN : Row := [("minimum_nights", Value.vnull)]

/-- One-row dataframe whose `minimum_nights` is null. -/
def dfNullMN : DataFrame := ⟨[("minimum_nights", DType.TInt)], [rowNullMN]⟩

/-- A one-column dataframe whose single `bedrooms` value is null in row 0
and 3.0 in row 1, for exercising the null-flagging loop concretely. -/
def dfBedrooms : DataFrame :=
  ⟨[("bedrooms", DType.TDouble)],
   [[("bedrooms", Value.vnull)], [("bedrooms", Value.vdbl 3)]]⟩

/-- The pre-imputation dataframe of the 5-row scenario: projected, price
fixed, outlier filtered, integer-cast, null-flagged. -/
def d5 : DataFrame :=
  addNaFlags (castIntegerColumns (min_nights_df (pos_prices_df
    (fixed_price_df ((raw5.select columns_to_keep).getD emptyDF)))))

/-- The medians the imputer fits on `d5`. -/
def ms5 : List (String × ℚ) := (imputerFit d5 impute_cols).getD []

/-! ## Association-list lemmas -/

theorem getKV_setKV_same {β : Type} (s : List (String × β)) (n : String) (b : β) :
    getKV (setKV s n b) n = some b := by
  induction s with
  | nil => simp [setKV, getKV]
  | cons p rest ih =>
      obtain ⟨n', b'⟩ := p
      by_cases h : n' = n <;> simp [setKV, getKV, h, ih]

theorem getKV_setKV_ne {β : Type} (s : List (String × β)) (n m : String) (b : β)
    (h : m ≠ n) : getKV (setKV s n b) m = getKV s m := by
  have hnm : ¬ n = m := fun hh => h hh.symm
  induction s with
  | nil => simp [setKV, getKV, hnm]
  | cons p rest ih =>
      obtain ⟨n', b'⟩ := p
      by_cases h1 : n' = n
      · subst h1
        simp [setKV, getKV, hnm]
      · by_cases h2 : n' = m <;> simp [setKV, getKV, h1, h2, h, ih]

theorem getVal_setKV_same (r : Row) (c : String) (v : Value) :
    getVal (setKV r c v) c = v := by
  simp [getVal, getKV_setKV_same]

theorem getVal_setKV_ne (r : Row) (c c' : String) (v : Value) (h : c' ≠ c) :
    getVal (setKV r c v) c' = getVal r c' := by
  simp [getVal, getKV_setKV_ne r c c' v h]

theorem keys_setKV_mem {β : Type} (s : List (String × β)) (n : String) (b : β)
    (h : n ∈ s.map Prod.fst) : (setKV s n b).map Prod.fst = s.map Prod.fst := by
  induction s with
  | nil => simp at h
  | cons p rest ih =>
      obtain ⟨n', b'⟩ := p
      by_cases h1 : n' = n
      · simp [setKV, h1]
      · rw [List.map_cons] at h
        rcases List.mem_cons.mp h with h3 | h3
        · exact absurd h3.symm h1
        · simp [setKV, h1, ih h3]

theorem setKV_append {β : Type} (s : List (String × β)) (n : String) (b : β)
    (h : n ∉ s.map Prod.fst) : setKV s n b = s ++ [(n, b)] := by
  induction s with
  | nil => simp [setKV]
  | cons p rest ih =>
      obtain ⟨n', b'⟩ := p
      rw [List.map_cons] at h
      have h1 : ¬ n' = n :=
        fun hh => h (List.mem_cons.mpr (Or.inl hh.symm))
      have h2 : n ∉ rest.map Prod.fst :=
        fun hh => h (List.mem_cons.mpr (Or.inr hh))
      simp [setKV, h1, ih h2]

/-! ## Fold lemmas: a fold of `withColumn` operations maps each row through
the corresponding fold of `setKV` updates, and folds `setKV` on the schema. -/

theorem rows_foldl_withColumn {α : Type} (nm : α → String) (t : DType)
    (g : α → Row → Value) :
    ∀ (l : List α) (df : DataFrame),
      (l.foldl (fun d a => d.withColumn (nm a) t (g a)) df).rows
        = df.rows.map (fun r => l.foldl (fun r a => setKV r (nm a) (g a r)) r) := by
  intro l
  induction l with
  | nil => intro df; simp
  | cons a l ih =>
      intro df
      rw [List.foldl_cons, ih]
      simp only [DataFrame.withColumn, List.map_map, List.foldl_cons]
      rfl

theorem schema_foldl_withColumn {α : Type} (nm : α → String) (t : DType)
    (g : α → Row → Value) :
    ∀ (l : List α) (df : DataFrame),
      (l.foldl (fun d a => d.withColumn (nm a) t (g a)) df).schema
        = l.foldl (fun s a => setKV s (nm a) t) df.schema := by
  intro l
  induction l with
  | nil => intro df; rfl
  | cons a l ih => intro df; rw [List.foldl_cons, ih]; rfl

theorem rowFold_pres {α : Type} (nm : α → String) (g : α → Row → Value)
    (P : Row → Prop) :
    ∀ (l : List α), (∀ a ∈ l, ∀ r, P r → P (setKV r (nm a) (g a r))) →
      ∀ r, P r → P (l.foldl (fun r a => setKV r (nm a) (g a r)) r) := by
  intro l
  induction l with
  | nil => intro _ r h; exact h
  | cons a l ih =>
      intro hg r h
      rw [List.foldl_cons]
      exact ih (fun a ha => hg a (List.mem_cons_of_mem _ ha)) _
        (hg a (List.mem_cons_self _ _) r h)

theorem foldl_withColumn_pres {α : Type} (nm : α → String) (t : DType)
    (g : α → Row → Value) (P : Row → Prop) (l : List α)
    (hg : ∀ a ∈ l, ∀ r, P r → P (setKV r (nm a) (g a r)))
    (df : DataFrame) (h : ∀ r ∈ df.rows, P r) :
    ∀ r ∈ (l.foldl (fun d a => d.withColumn (nm a) t (g a)) df).rows, P r := by
  intro r hr
  rw [rows_foldl_withColumn] at hr
  obtain ⟨r0, hr0, rfl⟩ := List.mem_map.mp hr
  exact rowFold_pres nm g P l hg r0 (h r0 hr0)

theorem getVal_rowFold_ne {α : Type} (nm : α → String) (g : α → Row → Value)
    (c : String) :
    ∀ (l : List α) (r : Row), (∀ a ∈ l, nm a ≠ c) →
      getVal (l.foldl (fun r a => setKV r (nm a) (g a r)) r) c = getVal r c := by
  intro l
  induction l with
  | nil => intro r _; rfl
  | cons a l ih =>
      intro r hne
      rw [List.foldl_cons, ih _ (fun a ha => hne a (List.mem_cons_of_mem _ ha)),
        getVal_setKV_ne _ _ _ _ (Ne.symm (hne a (List.mem_cons_self _ _)))]

/-! ## Value-level lemmas -/

theorem vGT_castDouble (v : Value) (q : ℚ) (h : vGT v q = true) :
    vGT (castDouble v) q = true := by
  cases v <;> simp_all [vGT, numVal, castDouble]

theorem vLE_castDouble (v : Value) (q : ℚ) (h : vLE v q = true) :
    vLE (castDouble v) q = true := by
  cases v <;> simp_all [vLE, numVal, castDouble]

theorem vLE_not_null (v : Value) (q : ℚ) (h : vLE v q = true) :
    isNullVal v = false := by
  cases v <;> simp_all [vLE, numVal, isNullVal]

theorem vLE_null (q : ℚ) : vLE Value.vnull q = false := rfl

/-! ## The outlier-filter row invariant and its preservation -/

theorem rowInv_setKV_cast (c : String) (r : Row) (h : rowInv r) :
    rowInv (setKV r c (castDouble (getVal r c))) := by
  obtain ⟨h1, h2⟩ := h
  constructor
  · unfold pricePred at *
    by_cases hc : c = "price"
    · subst hc
      rw [getVal_setKV_same]
      exact vGT_castDouble _ _ h1
    · rw [getVal_setKV_ne _ _ _ _ (fun hh => hc hh.symm)]
      exact h1
  · unfold minNightsPred at *
    by_cases hc : c = "minimum_nights"
    · subst hc
      rw [getVal_setKV_same]
      exact vLE_castDouble _ _ h2
    · rw [getVal_setKV_ne _ _ _ _ (fun hh => hc hh.symm)]
      exact h2

theorem rowInv_setKV_other (n : String) (v : Value) (r : Row)
    (hp : n ≠ "price") (hm : n ≠ "minimum_nights") (h : rowInv r) :
    rowInv (setKV r n v) := by
  obtain ⟨h1, h2⟩ := h
  constructor
  · unfold pricePred at *
    rw [getVal_setKV_ne _ _ _ _ (Ne.symm hp)]
    exact h1
  · unfold minNightsPred at *
    rw [getVal_setKV_ne _ _ _ _ (Ne.symm hm)]
    exact h2

/-- None of the imputable columns, and none of their `_na` companions, is
the `price` or `minimum_nights` column. -/
theorem impute_cols_names : ∀ c ∈ impute_cols,
    c ≠ "price" ∧ c ≠ "minimum_nights" ∧
    c ++ "_na" ≠ "price" ∧ c ++ "_na" ≠ "minimum_nights" := by decide

/-- The fitted medians are keyed exactly by the columns they were fitted
on. -/
theorem imputerFit_keys (df : DataFrame) :
    ∀ (cols : List String) (ms : List (String × ℚ)),
      imputerFit df cols = some ms → ∀ p ∈ ms, p.1 ∈ cols := by
  intro cols
  induction cols with
  | nil =>
      intro ms h p hp
      simp [imputerFit] at h
      subst h
      simp at hp
  | cons c cs ih =>
      intro ms h p hp
      unfold imputerFit at h
      cases hm : median (colNonNull df c) with
      | none => rw [hm] at h; simp at h
      | some m =>
          rw [hm] at h
          cases hf : imputerFit df cs with
          | none => rw [hf] at h; simp at h
          | some ms' =>
              rw [hf] at h
              simp at h
              subst h
              rcases List.mem_cons.mp hp with h1 | h1
              · rw [h1]
                exact List.mem_cons_self _ _
              · exact List.mem_cons_of_mem _ (ih ms' hf p h1)

/-! ## The pipeline's stage structure and the preservation of the
outlier-filter invariant through the later stages -/

theorem pipeline_inv (raw out : DataFrame) (h : pipeline raw = some out) :
    ∃ b ms,
      raw.select columns_to_keep = some b ∧
      imputerFit (addNaFlags (castIntegerColumns
        (min_nights_df (pos_prices_df (fixed_price_df b))))) impute_cols = some ms ∧
      out = imputerTransform ms (addNaFlags (castIntegerColumns
        (min_nights_df (pos_prices_df (fixed_price_df b))))) := by
  simp only [pipeline] at h
  split at h
  · exact absurd h (by simp)
  · rename_i b hsel
    split at h
    · exact absurd h (by simp)
    · rename_i ms hfit
      exact ⟨b, ms, hsel, hfit, (Option.some.inj h).symm⟩

theorem min_nights_rows_inv (df : DataFrame) :
    ∀ r ∈ (min_nights_df (pos_prices_df df)).rows, rowInv r := by
  intro r hr
  simp only [min_nights_df, pos_prices_df, DataFrame.filterRows,
    List.mem_filter] at hr
  exact ⟨hr.1.2, hr.2⟩

theorem castIntegerColumns_rows_inv (df : DataFrame)
    (h : ∀ r ∈ df.rows, rowInv r) :
    ∀ r ∈ (castIntegerColumns df).rows, rowInv r := by
  unfold castIntegerColumns
  exact foldl_withColumn_pres (fun c => c) DType.TDouble
    (fun c r => castDouble (getVal r c)) rowInv (integer_columns df)
    (fun a _ r hr => rowInv_setKV_cast a r hr) df h

theorem addNaFlags_rows_inv (df : DataFrame)
    (h : ∀ r ∈ df.rows, rowInv r) :
    ∀ r ∈ (addNaFlags df).rows, rowInv r := by
  unfold addNaFlags
  refine foldl_withColumn_pres (fun c => c ++ "_na") DType.TDouble
    (fun c r => if isNullVal (getVal r c) then Value.vdbl 1 else Value.vdbl 0)
    rowInv impute_cols ?_ df h
  intro a ha r hr
  obtain ⟨-, -, h3, h4⟩ := impute_cols_names a ha
  exact rowInv_setKV_other _ _ _ h3 h4 hr

theorem imputerTransform_rows_inv (ms : List (String × ℚ)) (df : DataFrame)
    (hkeys : ∀ p ∈ ms, p.1 ∈ impute_cols) (h : ∀ r ∈ df.rows, rowInv r) :
    ∀ r ∈ (imputerTransform ms df).rows, rowInv r := by
  unfold imputerTransform
  refine foldl_withColumn_pres Prod.fst DType.TDouble
    (fun cm r =>
      match getVal r cm.1 with
      | Value.vnull => Value.vdbl cm.2
      | v => v) rowInv ms ?_ df h
  intro a ha r hr
  obtain ⟨h1, h2, -, -⟩ := impute_cols_names a.1 (hkeys a ha)
  exact rowInv_setKV_other _ _ _ h1 h2 hr

/-- Every row of the final dataset satisfies the outlier-filter invariant:
the filters establish it and every later stage preserves it. -/
theorem pipeline_rows_inv (raw out : DataFrame) (h : pipeline raw = some out) :
    ∀ r ∈ out.rows, rowInv r := by
  obtain ⟨b, ms, hsel, hfit, rfl⟩ := pipeline_inv raw out h
  exact imputerTransform_rows_inv ms _ (imputerFit_keys _ _ _ hfit)
    (addNaFlags_rows_inv _ (castIntegerColumns_rows_inv _ (min_nights_rows_inv _)))

/-! ## Claim theorems -/

/-- C1: For every row of the final (post-imputation, pre-write) dataset,
price > 0 and minimum_nights ≤ 365; at the boundary, a row whose
minimum_nights equals exactly 365 is retained by the pipeline and a row
with 366 is dropped. -/
theorem C1_final_invariant :
    (∀ raw out, pipeline raw = some out →
      ∀ r ∈ out.rows,
        vGT (getVal r "price") 0 = true ∧
        vLE (getVal r "minimum_nights") 365 = true) ∧
    (pipeline rawAt365).map (fun d => d.rows.map (fun r => getVal r "minimum_nights"))
      = some [Value.vdbl 365, Value.vdbl 1] ∧
    (pipeline rawAt366).map (fun d => d.rows.map (fun r => getVal r "minimum_nights"))
      = some [Value.vdbl 1] := by
  refine ⟨?_, by decide, by decide⟩
  intro raw out h r hr
  exact pipeline_rows_inv raw out h r hr

/-- Witness for C1: the invariant, instantiated on the concrete boundary
input `rawAt365` and the first row of its output. -/
theorem C1_final_invariant_witness :
    vGT (getVal (out365.rows.getD 0 []) "price") 0 = true ∧
    vLE (getVal (out365.rows.getD 0 []) "minimum_nights") 365 = true :=
  C1_final_invariant.1 rawAt365 out365 (by decide) _ (by decide)

/-- C4: The price normalization removes every `$` and `,` from the price
text and parses the remainder as a double; `"$1,200.50"` gives 1200.50
(the rational `mkRat 2401 2`), `"$0"` gives 0.0, and a non-numeric
remainder such as `"N/A"` gives null — never 0 and never a thrown error
(the normalization is a total function into values). -/
theorem C4_price_parse :
    (∀ s, ∀ ch ∈ (stripDollarComma s).data, ch ≠ '$' ∧ ch ≠ ',') ∧
    priceNormalize (Value.vstr "$1,200.50") = Value.vdbl (mkRat 2401 2) ∧
    priceNormalize (Value.vstr "$0") = Value.vdbl 0 ∧
    priceNormalize (Value.vstr "N/A") = Value.vnull ∧
    (∀ s, parseDouble (stripDollarComma s) = none →
      priceNormalize (Value.vstr s) = Value.vnull ∧
      priceNormalize (Value.vstr s) ≠ Value.vdbl 0) := by
  refine ⟨?_, by decide, by decide, by decide, ?_⟩
  · intro s ch hch
    simp only [stripDollarComma, List.mem_filter] at hch
    have h2 := hch.2
    simp at h2
    exact h2
  · intro s h
    have : priceNormalize (Value.vstr s)
        = (match parseDouble (stripDollarComma s) with
           | some q => Value.vdbl q
           | none => Value.vnull) := rfl
    rw [h] at this
    exact ⟨this, by rw [this]; exact fun hh => Value.noConfusion hh⟩

/-- Witness for C4: the non-numeric branch instantiated at the concrete
input `"free"`. -/
theorem C4_price_parse_witness :
    priceNormalize (Value.vstr "free") = Value.vnull ∧
    priceNormalize (Value.vstr "free") ≠ Value.vdbl 0 :=
  C4_price_parse.2.2.2.2 "free" (by decide)

/-- C6: On the 5-row synthetic input with prices
`["$100", "$0", "$50", "free", "$75"]` and minimum nights `[1, 2, 400, 5, 3]`,
the pipeline retains exactly rows 1 and 5 (prices 100 and 75, minimum
nights 1 and 3); row 4's unparseable price becomes null after the price
fix and fails the positive-price predicate. -/
theorem C6_end_to_end :
    (pipeline raw5).map (fun d => d.rows.length) = some 2 ∧
    (pipeline raw5).map (fun d => d.rows.map (fun r => getVal r "price"))
      = some [Value.vdbl 100, Value.vdbl 75] ∧
    (pipeline raw5).map (fun d => d.rows.map (fun r => getVal r "minimum_nights"))
      = some [Value.vdbl 1, Value.vdbl 3] ∧
    getVal ((fixed_price_df ((raw5.select columns_to_keep).getD emptyDF)).rows.getD 3 [])
      "price" = Value.vnull ∧
    pricePred ((fixed_price_df ((raw5.select columns_to_keep).getD emptyDF)).rows.getD 3 [])
      = false := by
  exact ⟨by decide, by decide, by decide, by decide, by decide⟩

/-- C8: The pipeline is deterministic and the write is a whole-location
overwrite, so running the job twice on the same input produces the same
stored dataset as running it once, and two successful runs on the same
input yield identical outputs regardless of what was previously stored. -/
theorem C8_deterministic_idempotent :
    (∀ raw store,
      (runPipeline raw store).bind (runPipeline raw) = runPipeline raw store) ∧
    (∀ raw s1 s2 o1 o2, runPipeline raw s1 = some o1 →
      runPipeline raw s2 = some o2 → o1 = o2) := by
  constructor
  · intro raw store
    cases h : pipeline raw with
    | none => simp [runPipeline, h]
    | some out => simp [runPipeline, h, writeDelta]
  · intro raw s1 s2 o1 o2 h1 h2
    cases h : pipeline raw with
    | none => simp [runPipeline, h] at h1
    | some out =>
        simp [runPipeline, h, writeDelta] at h1 h2
        rw [← h1, ← h2]

/-- Witness for C8: the two-run properties at the concrete input `raw5`
and two different prior stores. -/
theorem C8_deterministic_idempotent_witness :
    (runPipeline raw5 none).bind (runPipeline raw5) = runPipeline raw5 none ∧
    some out5 = some out5 :=
  ⟨C8_deterministic_idempotent.1 raw5 none,
   C8_deterministic_idempotent.2 raw5 none (some emptyDF)
     (some out5) (some out5) (by decide) (by decide)⟩

/-- C10: Every row whose `minimum_nights` is null is removed by the
minimum-stay filter (null does not satisfy `minimum_nights <= 365` under
SQL three-valued logic), hence `minimum_nights` is non-missing in every
row of the final dataset, even though it is not in `impute_cols`. -/
theorem C10_null_min_nights_dropped :
    ("minimum_nights" ∉ impute_cols) ∧
    (∀ df r, getVal r "minimum_nights" = Value.vnull →
      r ∉ (min_nights_df df).rows) ∧
    (∀ raw out, pipeline raw = some out →
      ∀ r ∈ out.rows, isNullVal (getVal r "minimum_nights") = false) := by
  refine ⟨by decide, ?_, ?_⟩
  · intro df r hnull hr
    simp only [min_nights_df, DataFrame.filterRows, List.mem_filter] at hr
    have h2 : minNightsPred r = true := hr.2
    unfold minNightsPred at h2
    rw [hnull] at h2
    exact absurd h2 (by simp [vLE, numVal])
  · intro raw out h r hr
    have h2 := (pipeline_rows_inv raw out h r hr).2
    unfold minNightsPred at h2
    exact vLE_not_null _ _ h2

/-- Witness for C10: the filter drops the concrete null-`minimum_nights`
row, and the concrete final dataset `out365` has it non-missing. -/
theorem C10_null_min_nights_dropped_witness :
    rowNullMN ∉ (min_nights_df dfNullMN).rows ∧
    isNullVal (getVal (out365.rows.getD 0 []) "minimum_nights") = false :=
  ⟨C10_null_min_nights_dropped.2.1 dfNullMN rowNullMN (by decide),
   C10_null_min_nights_dropped.2.2 rawAt365 out365 (by decide) _ (by decide)⟩

/-! ## Lookup and schema-fold lemmas -/

theorem mem_of_getKV {β : Type} :
    ∀ (s : List (String × β)) (n : String) (b : β),
      getKV s n = some b → (n, b) ∈ s := by
  intro s
  induction s with
  | nil => intro n b h; simp [getKV] at h
  | cons q rest ih =>
      intro n b h
      obtain ⟨n', b'⟩ := q
      by_cases h1 : n' = n
      · subst h1
        simp [getKV] at h
        subst h
        exact List.mem_cons_self _ _
      · simp only [getKV, if_neg h1] at h
        exact List.mem_cons_of_mem _ (ih n b h)

theorem getKV_of_mem_nodup {β : Type} :
    ∀ (s : List (String × β)) (p : String × β), p ∈ s →
      (s.map Prod.fst).Nodup → getKV s p.1 = some p.2 := by
  intro s
  induction s with
  | nil => intro p hp _; simp at hp
  | cons q rest ih =>
      intro p hp hnd
      obtain ⟨n, b⟩ := q
      rw [List.map_cons] at hnd
      rcases List.mem_cons.mp hp with h1 | h1
      · subst h1
        simp [getKV]
      · have hmem : p.1 ∈ List.map Prod.fst rest := List.mem_map_of_mem Prod.fst h1
        have hne : ¬ n = p.1 := fun hh => (List.nodup_cons.mp hnd).1 (hh ▸ hmem)
        simp [getKV, hne, ih p h1 (List.nodup_cons.mp hnd).2]

theorem getKV_isSome_of_mem_keys {β : Type} :
    ∀ (s : List (String × β)) (n : String), n ∈ s.map Prod.fst →
      ∃ b, getKV s n = some b := by
  intro s
  induction s with
  | nil => intro n h; simp at h
  | cons q rest ih =>
      intro n h
      obtain ⟨n', b'⟩ := q
      by_cases h1 : n' = n
      · exact ⟨b', by simp [getKV, h1]⟩
      · rw [List.map_cons] at h
        rcases List.mem_cons.mp h with h2 | h2
        · exact absurd h2.symm h1
        · obtain ⟨b, hb⟩ := ih n h2
          exact ⟨b, by simp [getKV, h1, hb]⟩

theorem keys_foldl_setKV {α β : Type} (nm : α → String) (t : β) :
    ∀ (l : List α) (s : List (String × β)),
      (∀ a ∈ l, nm a ∈ s.map Prod.fst) →
      (l.foldl (fun s a => setKV s (nm a) t) s).map Prod.fst = s.map Prod.fst := by
  intro l
  induction l with
  | nil => intro s _; rfl
  | cons a l ih =>
      intro s h
      rw [List.foldl_cons]
      have hk := keys_setKV_mem s (nm a) t (h a (List.mem_cons_self _ _))
      rw [ih (setKV s (nm a) t)
        (fun a' ha' => by rw [hk]; exact h a' (List.mem_cons_of_mem _ ha')), hk]

theorem getKV_foldl_setKV {β : Type} (t : β) :
    ∀ (l : List String) (s : List (String × β)) (c : String),
      getKV (l.foldl (fun s a => setKV s a t) s) c
        = if c ∈ l then some t else getKV s c := by
  intro l
  induction l with
  | nil => intro s c; simp
  | cons a l ih =>
      intro s c
      rw [List.foldl_cons, ih]
      by_cases h1 : c ∈ l
      · simp [h1, List.mem_cons]
      · by_cases h2 : c = a
        · subst h2
          simp [h1, getKV_setKV_same]
        · simp [h1, h2, List.mem_cons, getKV_setKV_ne _ _ _ _ h2]

theorem foldl_setKV_append {β : Type} (t : β) (nmf : String → String) :
    ∀ (l : List String) (s : List (String × β)),
      (∀ c ∈ l, nmf c ∉ s.map Prod.fst) → (l.map nmf).Nodup →
      l.foldl (fun s c => setKV s (nmf c) t) s
        = s ++ l.map (fun c => (nmf c, t)) := by
  intro l
  induction l with
  | nil => intro s _ _; simp
  | cons a l ih =>
      intro s h hnd
      rw [List.foldl_cons, setKV_append s (nmf a) t (h a (List.mem_cons_self _ _))]
      rw [List.map_cons] at hnd
      have hnd2 := List.nodup_cons.mp hnd
      have harg : ∀ c ∈ l, nmf c ∉ (s ++ [(nmf a, t)]).map Prod.fst := by
        intro c hc hmem
        rw [List.map_append] at hmem
        rcases List.mem_append.mp hmem with hm | hm
        · exact h c (List.mem_cons_of_mem _ hc) hm
        · simp at hm
          exact hnd2.1 (hm ▸ List.mem_map_of_mem nmf hc)
      rw [ih (s ++ [(nmf a, t)]) harg hnd2.2]
      simp

/-! ## Facts about `integer_columns` -/

theorem integer_columns_sub (df : DataFrame) :
    ∀ c ∈ integer_columns df, c ∈ df.schema.map Prod.fst := by
  intro c hc
  simp only [integer_columns, List.mem_map] at hc
  obtain ⟨p, hp, rfl⟩ := hc
  exact List.mem_map_of_mem Prod.fst (List.mem_of_mem_filter hp)

theorem integer_columns_nodup (df : DataFrame)
    (h : (df.schema.map Prod.fst).Nodup) : (integer_columns df).Nodup := by
  unfold integer_columns
  exact List.Nodup.sublist ((List.filter_sublist _).map Prod.fst) h

theorem mem_integer_columns_iff (df : DataFrame)
    (h : (df.schema.map Prod.fst).Nodup) (c : String) :
    c ∈ integer_columns df ↔ getKV df.schema c = some DType.TInt := by
  constructor
  · intro hc
    simp only [integer_columns, List.mem_map] at hc
    obtain ⟨p, hp, rfl⟩ := hc
    have hmem := List.mem_of_mem_filter hp
    have hty : p.2 = DType.TInt := by
      have := List.of_mem_filter hp
      simpa using this
    have hget := getKV_of_mem_nodup df.schema p hmem h
    rw [hty] at hget
    exact hget
  · intro hc
    have hmem := mem_of_getKV df.schema c DType.TInt hc
    simp only [integer_columns, List.mem_map]
    exact ⟨(c, DType.TInt), List.mem_filter.mpr ⟨hmem, by simp⟩, rfl⟩

theorem getD_map_rows (l : List Row) (f : Row → Row) (i : Nat)
    (hi : i < l.length) : (l.map f).getD i [] = f (l.getD i []) := by
  rw [List.getD_eq_getElem l [] hi,
    List.getD_eq_getElem (l.map f) [] (by simpa using hi), List.getElem_map]

theorem getVal_castFold :
    ∀ (l : List String) (r : Row), l.Nodup → ∀ c ∈ l,
      getVal (l.foldl (fun r a => setKV r a (castDouble (getVal r a))) r) c
        = castDouble (getVal r c) := by
  intro l
  induction l with
  | nil => intro r _ c hc; simp at hc
  | cons a l ih =>
      intro r hnd c hc
      have hnd2 := List.nodup_cons.mp hnd
      rw [List.foldl_cons]
      rcases List.mem_cons.mp hc with h1 | h1
      · subst h1
        have h2 := getVal_rowFold_ne (fun a => a)
          (fun a r => castDouble (getVal r a)) c l
          (setKV r c (castDouble (getVal r c)))
          (fun a' ha' hh => hnd2.1 (hh ▸ ha'))
        exact h2.trans (getVal_setKV_same _ _ _)
      · have hca : c ≠ a := fun hh => hnd2.1 (hh ▸ h1)
        have h2 := ih (setKV r a (castDouble (getVal r a))) hnd2.2 c h1
        rw [h2, getVal_setKV_ne _ _ _ _ hca]

/-- C7: The integer-to-double rule rewrites as double every column whose
type is integer in the schema current at the point the rule runs — scanning
the schema, not a fixed column list — so every integer-typed column of its
input is double-typed (and its values double-cast) in its output. -/
theorem C7_int_to_double (df : DataFrame)
    (h : (df.schema.map Prod.fst).Nodup) :
    ((castIntegerColumns df).schema.map Prod.fst = df.schema.map Prod.fst) ∧
    (∀ c, getKV (castIntegerColumns df).schema c
        = if getKV df.schema c = some DType.TInt then some DType.TDouble
          else getKV df.schema c) ∧
    (∀ c, getKV df.schema c = some DType.TInt →
      getKV (castIntegerColumns df).schema c = some DType.TDouble) ∧
    (castIntegerColumns df).rows.length = df.rows.length ∧
    (∀ i, i < df.rows.length → ∀ c, getKV df.schema c = some DType.TInt →
      getVal ((castIntegerColumns df).rows.getD i []) c
        = castDouble (getVal (df.rows.getD i []) c)) := by
  have hs : (castIntegerColumns df).schema
      = (integer_columns df).foldl (fun s a => setKV s a DType.TDouble) df.schema :=
    schema_foldl_withColumn (fun c => c) DType.TDouble
      (fun c r => castDouble (getVal r c)) (integer_columns df) df
  have hr : (castIntegerColumns df).rows
      = df.rows.map (fun r => (integer_columns df).foldl
          (fun r a => setKV r a (castDouble (getVal r a))) r) :=
    rows_foldl_withColumn (fun c => c) DType.TDouble
      (fun c r => castDouble (getVal r c)) (integer_columns df) df
  have hlook : ∀ c, getKV (castIntegerColumns df).schema c
      = if getKV df.schema c = some DType.TInt then some DType.TDouble
        else getKV df.schema c := by
    intro c
    rw [hs, getKV_foldl_setKV]
    by_cases hc : getKV df.schema c = some DType.TInt
    · rw [if_pos ((mem_integer_columns_iff df h c).mpr hc), if_pos hc]
    · rw [if_neg (fun hm => hc ((mem_integer_columns_iff df h c).mp hm)),
        if_neg hc]
  refine ⟨?_, hlook, ?_, ?_, ?_⟩
  · rw [hs]
    exact keys_foldl_setKV (fun c => c) DType.TDouble (integer_columns df)
      df.schema (integer_columns_sub df)
  · intro c hc
    rw [hlook c, if_pos hc]
  · rw [hr]
    simp
  · intro i hi c hc
    rw [hr, getD_map_rows df.rows _ i hi]
    exact getVal_castFold (integer_columns df) (df.rows.getD i [])
      (integer_columns_nodup df h) c ((mem_integer_columns_iff df h c).mpr hc)

/-- Witness for C7: on the concrete raw schema, `minimum_nights` (inferred
integer) is double-typed after the cast loop, and a concrete integer value
is rewritten to a double. -/
theorem C7_int_to_double_witness :
    getKV (castIntegerColumns ⟨rawSchema, [mkListing 1 "$9" 4]⟩).schema
      "minimum_nights" = some DType.TDouble ∧
    getVal ((castIntegerColumns ⟨rawSchema, [mkListing 1 "$9" 4]⟩).rows.getD 0 [])
      "minimum_nights"
      = castDouble (getVal ((⟨rawSchema, [mkListing 1 "$9" 4]⟩ : DataFrame).rows.getD 0 [])
          "minimum_nights") :=
  ⟨(C7_int_to_double ⟨rawSchema, [mkListing 1 "$9" 4]⟩ (by decide)).2.2.1
      "minimum_nights" (by decide),
   (C7_int_to_double ⟨rawSchema, [mkListing 1 "$9" 4]⟩ (by decide)).2.2.2.2
      0 (by decide) "minimum_nights" (by decide)⟩

/-- C9: No column outside `impute_cols` ever gains a `_na` companion — the
null-flagging stage appends exactly the ten `<col>_na` columns and nothing
else — and the imputation stage neither adds, removes nor renames any
column: its input and output column lists are identical. -/
theorem C9_frame :
    (∀ (ms : List (String × ℚ)) (df : DataFrame),
      (∀ p ∈ ms, p.1 ∈ df.schema.map Prod.fst) →
      (imputerTransform ms df).schema.map Prod.fst = df.schema.map Prod.fst) ∧
    (∀ df : DataFrame,
      (∀ c ∈ impute_cols, (c ++ "_na") ∉ df.schema.map Prod.fst) →
      (addNaFlags df).schema
        = df.schema ++ impute_cols.map (fun c => (c ++ "_na", DType.TDouble))) ∧
    (∀ df : DataFrame,
      (∀ c ∈ impute_cols, (c ++ "_na") ∉ df.schema.map Prod.fst) →
      ∀ n, n ∈ (addNaFlags df).schema.map Prod.fst →
        n ∈ df.schema.map Prod.fst ∨ ∃ c ∈ impute_cols, n = c ++ "_na") := by
  have hna : ∀ df : DataFrame,
      (∀ c ∈ impute_cols, (c ++ "_na") ∉ df.schema.map Prod.fst) →
      (addNaFlags df).schema
        = df.schema ++ impute_cols.map (fun c => (c ++ "_na", DType.TDouble)) := by
    intro df h
    have hs : (addNaFlags df).schema
        = impute_cols.foldl (fun s c => setKV s (c ++ "_na") DType.TDouble)
            df.schema :=
      schema_foldl_withColumn (fun c => c ++ "_na") DType.TDouble
        (fun c r => if isNullVal (getVal r c) then Value.vdbl 1 else Value.vdbl 0)
        impute_cols df
    rw [hs, foldl_setKV_append DType.TDouble (fun c => c ++ "_na") impute_cols
      df.schema h (by decide)]
  refine ⟨?_, hna, ?_⟩
  · intro ms df hk
    have hs : (imputerTransform ms df).schema
        = ms.foldl (fun s p => setKV s p.1 DType.TDouble) df.schema :=
      schema_foldl_withColumn Prod.fst DType.TDouble
        (fun cm r =>
          match getVal r cm.1 with
          | Value.vnull => Value.vdbl cm.2
          | v => v) ms df
    rw [hs]
    exact keys_foldl_setKV Prod.fst DType.TDouble ms df.schema hk
  · intro df h n hn
    rw [hna df h, List.map_append] at hn
    rcases List.mem_append.mp hn with hm | hm
    · exact Or.inl hm
    · right
      rw [List.map_map] at hm
      obtain ⟨c, hc, hcn⟩ := List.mem_map.mp hm
      exact ⟨c, hc, hcn.symm⟩

/-- Witness for C9: the two schema contracts instantiated on a concrete
one-column dataframe and a concrete medians list. -/
theorem C9_frame_witness :
    (imputerTransform [("bedrooms", 2)]
        ⟨[("bedrooms", DType.TDouble)], []⟩).schema.map Prod.fst
      = [("bedrooms", DType.TDouble)].map Prod.fst ∧
    (addNaFlags ⟨[("bedrooms", DType.TDouble)], []⟩).schema
      = [("bedrooms", DType.TDouble)]
          ++ impute_cols.map (fun c => (c ++ "_na", DType.TDouble)) :=
  ⟨C9_frame.1 [("bedrooms", 2)] ⟨[("bedrooms", DType.TDouble)], []⟩ (by decide),
   C9_frame.2.1 ⟨[("bedrooms", DType.TDouble)], []⟩ (by decide)⟩

/-! ## The `_na` flag fold and the imputer transform fold, row by row -/

theorem getVal_naFold_flag :
    ∀ (l : List String) (r : Row), l.Nodup →
      (∀ c ∈ l, ∀ c' ∈ l, c ≠ c' ++ "_na") →
      (∀ c ∈ l, ∀ c' ∈ l, c ≠ c' → c ++ "_na" ≠ c' ++ "_na") →
      ∀ c ∈ l,
        getVal (l.foldl (fun r a => setKV r (a ++ "_na")
            (if isNullVal (getVal r a) then Value.vdbl 1 else Value.vdbl 0)) r)
          (c ++ "_na")
          = (if isNullVal (getVal r c) then Value.vdbl 1 else Value.vdbl 0) := by
  intro l
  induction l with
  | nil => intro r _ _ _ c hc; simp at hc
  | cons a l ih =>
      intro r hnd h2 h3 c hc
      have hnd2 := List.nodup_cons.mp hnd
      rw [List.foldl_cons]
      rcases List.mem_cons.mp hc with h1 | h1
      · subst h1
        have hfr := getVal_rowFold_ne (fun a => a ++ "_na")
          (fun a r => if isNullVal (getVal r a) then Value.vdbl 1 else Value.vdbl 0)
          (c ++ "_na") l
          (setKV r (c ++ "_na")
            (if isNullVal (getVal r c) then Value.vdbl 1 else Value.vdbl 0))
          (fun a' ha' => h3 a' (List.mem_cons_of_mem _ ha') c
            (List.mem_cons_self _ _) (fun hh => hnd2.1 (hh ▸ ha')))
        exact hfr.trans (getVal_setKV_same _ _ _)
      · have hca : getVal (setKV r (a ++ "_na")
            (if isNullVal (getVal r a) then Value.vdbl 1 else Value.vdbl 0)) c
            = getVal r c :=
          getVal_setKV_ne _ _ _ _
            (h2 c (List.mem_cons_of_mem _ h1) a (List.mem_cons_self _ _))
        have hih := ih (setKV r (a ++ "_na")
            (if isNullVal (getVal r a) then Value.vdbl 1 else Value.vdbl 0))
          hnd2.2
          (fun x hx y hy => h2 x (List.mem_cons_of_mem _ hx) y (List.mem_cons_of_mem _ hy))
          (fun x hx y hy => h3 x (List.mem_cons_of_mem _ hx) y (List.mem_cons_of_mem _ hy))
          c h1
        rw [hih, hca]

theorem getVal_rowTrans :
    ∀ (ms : List (String × ℚ)) (r : Row), (ms.map Prod.fst).Nodup →
      ∀ p ∈ ms,
        getVal (ms.foldl (fun r cm => setKV r cm.1
            (match getVal r cm.1 with
             | Value.vnull => Value.vdbl cm.2
             | v => v)) r) p.1
          = (match getVal r p.1 with
             | Value.vnull => Value.vdbl p.2
             | v => v) := by
  intro ms
  induction ms with
  | nil => intro r _ p hp; simp at hp
  | cons q ms ih =>
      intro r hnd p hp
      rw [List.map_cons] at hnd
      have hnd2 := List.nodup_cons.mp hnd
      rw [List.foldl_cons]
      rcases List.mem_cons.mp hp with h1 | h1
      · subst h1
        have hfr := getVal_rowFold_ne Prod.fst
          (fun cm r =>
            match getVal r cm.1 with
            | Value.vnull => Value.vdbl cm.2
            | v => v) p.1 ms
          (setKV r p.1
            (match getVal r p.1 with
             | Value.vnull => Value.vdbl p.2
             | v => v))
          (fun a' ha' hh => hnd2.1 (hh ▸ List.mem_map_of_mem Prod.fst ha'))
        exact hfr.trans (getVal_setKV_same _ _ _)
      · have hpq : p.1 ≠ q.1 := by
          intro hh
          exact hnd2.1 (hh ▸ List.mem_map_of_mem Prod.fst h1)
        have hca := getVal_setKV_ne r q.1 p.1
          (match getVal r q.1 with
           | Value.vnull => Value.vdbl q.2
           | v => v) hpq
        have hih := ih (setKV r q.1
            (match getVal r q.1 with
             | Value.vnull => Value.vdbl q.2
             | v => v)) hnd2.2 p h1
        rw [hih, hca]

/-! ## Properties of the imputer fit -/

theorem imputerFit_keys_eq (df : DataFrame) :
    ∀ (cols : List String) (ms : List (String × ℚ)),
      imputerFit df cols = some ms → ms.map Prod.fst = cols := by
  intro cols
  induction cols with
  | nil =>
      intro ms h
      simp [imputerFit] at h
      subst h
      rfl
  | cons c cs ih =>
      intro ms h
      unfold imputerFit at h
      cases hm : median (colNonNull df c) with
      | none => rw [hm] at h; simp at h
      | some m =>
          rw [hm] at h
          cases hf : imputerFit df cs with
          | none => rw [hf] at h; simp at h
          | some ms' =>
              rw [hf] at h
              simp at h
              subst h
              rw [List.map_cons, ih ms' hf]

theorem imputerFit_lookup (df : DataFrame) :
    ∀ (cols : List String) (ms : List (String × ℚ)),
      imputerFit df cols = some ms → ∀ c ∈ cols,
        ∃ m, median (colNonNull df c) = some m ∧ getKV ms c = some m := by
  intro cols
  induction cols with
  | nil => intro ms h c hc; simp at hc
  | cons c0 cs ih =>
      intro ms h c hc
      unfold imputerFit at h
      cases hm : median (colNonNull df c0) with
      | none => rw [hm] at h; simp at h
      | some m0 =>
          rw [hm] at h
          cases hf : imputerFit df cs with
          | none => rw [hf] at h; simp at h
          | some ms' =>
              rw [hf] at h
              simp at h
              subst h
              by_cases hcc : c = c0
              · subst hcc
                exact ⟨m0, hm, by simp [getKV]⟩
              · rcases List.mem_cons.mp hc with h1 | h1
                · exact absurd h1 hcc
                · obtain ⟨m, hm2, hg⟩ := ih ms' hf c h1
                  have hne : ¬ c0 = c := fun hh => hcc hh.symm
                  exact ⟨m, hm2, by simp [getKV, hne, hg]⟩

theorem imputerTransform_no_null (ms : List (String × ℚ)) (df : DataFrame)
    (hk : ms.map Prod.fst = impute_cols) :
    ∀ r ∈ (imputerTransform ms df).rows, ∀ c ∈ impute_cols,
      isNullVal (getVal r c) = false := by
  intro r hr c hc
  have hnd : (ms.map Prod.fst).Nodup := by rw [hk]; decide
  have hrf : (imputerTransform ms df).rows
      = df.rows.map (fun r => ms.foldl (fun r cm => setKV r cm.1
          (match getVal r cm.1 with
           | Value.vnull => Value.vdbl cm.2
           | v => v)) r) :=
    rows_foldl_withColumn Prod.fst DType.TDouble
      (fun cm r =>
        match getVal r cm.1 with
        | Value.vnull => Value.vdbl cm.2
        | v => v) ms df
  rw [hrf] at hr
  obtain ⟨r0, hr0, rfl⟩ := List.mem_map.mp hr
  have hcm : c ∈ ms.map Prod.fst := by rw [hk]; exact hc
  obtain ⟨p, hp, hpc⟩ := List.mem_map.mp hcm
  have htr := getVal_rowTrans ms r0 hnd p hp
  rw [hpc] at htr
  rw [htr]
  cases hv : getVal r0 c <;> simp [isNullVal]

/-- C2: For each column in `impute_cols`, in that exact order, the
null-flagging loop appends a derived column `<c>_na` (the schema becomes
the old schema followed by the ten `_na` columns in `impute_cols` order),
whose value in each row is 1.0 iff `c` is missing in that row at the point
immediately before imputation (the loop leaves the source columns
untouched, so missingness there is missingness just before imputation). -/
theorem C2_na_flags (df : DataFrame)
    (h : ∀ c ∈ impute_cols, (c ++ "_na") ∉ df.schema.map Prod.fst) :
    (addNaFlags df).schema
      = df.schema ++ impute_cols.map (fun c => (c ++ "_na", DType.TDouble)) ∧
    (addNaFlags df).rows.length = df.rows.length ∧
    (∀ i, i < df.rows.length → ∀ c ∈ impute_cols,
      getVal ((addNaFlags df).rows.getD i []) c = getVal (df.rows.getD i []) c ∧
      getVal ((addNaFlags df).rows.getD i []) (c ++ "_na")
        = (if isNullVal (getVal ((addNaFlags df).rows.getD i []) c)
           then Value.vdbl 1 else Value.vdbl 0)) := by
  have hs : (addNaFlags df).schema
      = impute_cols.foldl (fun s c => setKV s (c ++ "_na") DType.TDouble)
          df.schema :=
    schema_foldl_withColumn (fun c => c ++ "_na") DType.TDouble
      (fun c r => if isNullVal (getVal r c) then Value.vdbl 1 else Value.vdbl 0)
      impute_cols df
  have hr : (addNaFlags df).rows
      = df.rows.map (fun r => impute_cols.foldl (fun r a => setKV r (a ++ "_na")
          (if isNullVal (getVal r a) then Value.vdbl 1 else Value.vdbl 0)) r) :=
    rows_foldl_withColumn (fun c => c ++ "_na") DType.TDouble
      (fun c r => if isNullVal (getVal r c) then Value.vdbl 1 else Value.vdbl 0)
      impute_cols df
  refine ⟨?_, ?_, ?_⟩
  · rw [hs, foldl_setKV_append DType.TDouble (fun c => c ++ "_na") impute_cols
      df.schema h (by decide)]
  · rw [hr]
    simp
  · intro i hi c hc
    rw [hr, getD_map_rows df.rows _ i hi]
    have hfact : ∀ a ∈ impute_cols, a ++ "_na" ≠ c := by
      have : ∀ a ∈ impute_cols, ∀ c' ∈ impute_cols, a ++ "_na" ≠ c' := by decide
      exact fun a ha => this a ha c hc
    have hsrc := getVal_rowFold_ne (fun c => c ++ "_na")
      (fun a r => if isNullVal (getVal r a) then Value.vdbl 1 else Value.vdbl 0)
      c impute_cols (df.rows.getD i []) hfact
    have hflag := getVal_naFold_flag impute_cols (df.rows.getD i [])
      (by decide) (by decide) (by decide) c hc
    exact ⟨hsrc, by rw [hflag, hsrc]⟩

/-- Witness for C2: the flag contract at the concrete dataframe
`dfBedrooms`, row 0 (missing, flag 1.0) — via the theorem itself. -/
theorem C2_na_flags_witness :
    getVal ((addNaFlags dfBedrooms).rows.getD 0 []) "bedrooms"
      = getVal (dfBedrooms.rows.getD 0 []) "bedrooms" ∧
    getVal ((addNaFlags dfBedrooms).rows.getD 0 []) ("bedrooms" ++ "_na")
      = (if isNullVal (getVal ((addNaFlags dfBedrooms).rows.getD 0 []) "bedrooms")
         then Value.vdbl 1 else Value.vdbl 0) :=
  (C2_na_flags dfBedrooms (by decide)).2.2 0 (by decide) "bedrooms" (by decide)

/-- C3: The imputation stage's fit computes, for each column of
`impute_cols`, the median of that column's non-missing values over the
whole outlier-filtered dataset; its transform replaces exactly the missing
values of those columns with the fitted median and leaves non-missing
values unchanged; consequently every `impute_cols` column of the final
dataset has zero missing values.  (The Imputer itself is external SparkML
code, modelled here from its documented median fit/transform contract.) -/
theorem C3_imputer :
    (∀ (df : DataFrame) (ms : List (String × ℚ)),
      imputerFit df impute_cols = some ms →
      (∀ c ∈ impute_cols, ∃ m,
        median (colNonNull df c) = some m ∧ getKV ms c = some m ∧
        ∀ i, i < df.rows.length →
          getVal ((imputerTransform ms df).rows.getD i []) c
            = (match getVal (df.rows.getD i []) c with
               | Value.vnull => Value.vdbl m
               | v => v)) ∧
      (imputerTransform ms df).rows.length = df.rows.length) ∧
    (∀ raw out, pipeline raw = some out →
      ∀ r ∈ out.rows, ∀ c ∈ impute_cols, isNullVal (getVal r c) = false) := by
  constructor
  · intro df ms hfit
    have hkeys := imputerFit_keys_eq df impute_cols ms hfit
    have hnd : (ms.map Prod.fst).Nodup := by rw [hkeys]; decide
    have hr : (imputerTransform ms df).rows
        = df.rows.map (fun r => ms.foldl (fun r cm => setKV r cm.1
            (match getVal r cm.1 with
             | Value.vnull => Value.vdbl cm.2
             | v => v)) r) :=
      rows_foldl_withColumn Prod.fst DType.TDouble
        (fun cm r =>
          match getVal r cm.1 with
          | Value.vnull => Value.vdbl cm.2
          | v => v) ms df
    constructor
    · intro c hc
      obtain ⟨m, hmed, hget⟩ := imputerFit_lookup df impute_cols ms hfit c hc
      refine ⟨m, hmed, hget, ?_⟩
      intro i hi
      rw [hr, getD_map_rows df.rows _ i hi]
      exact getVal_rowTrans ms (df.rows.getD i []) hnd (c, m)
        (mem_of_getKV ms c m hget)
    · rw [hr]
      simp
  · intro raw out h r hrr c hc
    obtain ⟨b, ms, hsel, hfit, rfl⟩ := pipeline_inv raw out h
    exact imputerTransform_no_null ms _ (imputerFit_keys_eq _ _ _ hfit) r hrr c hc

/-- Witness for C3: the fit/transform contract instantiated at the
concrete pre-imputation dataframe `d5` and column `bedrooms`. -/
theorem C3_imputer_witness :
    ∃ m, median (colNonNull d5 "bedrooms") = some m ∧
      getKV ms5 "bedrooms" = some m ∧
      ∀ i, i < d5.rows.length →
        getVal ((imputerTransform ms5 d5).rows.getD i []) "bedrooms"
          = (match getVal (d5.rows.getD i []) "bedrooms" with
             | Value.vnull => Value.vdbl m
             | v => v) :=
  (C3_imputer.1 d5 ms5 (by decide)).1 "bedrooms" (by decide)

/-- Counterexample to C5: in the notebook's actual order the
integer-to-double loop runs only after both outlier filters, so the
claimed staging — both type-normalization rules before the filters — is
false of the code. -/
theorem C5_counterexample : ¬ filtersAfterFullNormalization := by
  intro h
  exact absurd h.2.2.1 (by decide)

/-- C5 (amended): The outlier filters are applied after the price-cast
rule but before the integer-to-double rule; the stages run strictly
forward, each applied exactly once, in the order loader, projector, price
cast, positive-price filter, minimum-stay filter, integer-to-double cast,
null-flagging, imputer, writer; and on the dataframe side every
successful pipeline run factors as exactly that forward composition. -/
theorem C5_stage_order :
    notebookStageOrder
      = [Stage.loader, Stage.projector, Stage.priceCast, Stage.posPriceFilter,
         Stage.minNightsFilter, Stage.intCast, Stage.naFlag, Stage.imputeStage,
         Stage.writer] ∧
    notebookStageOrder.Nodup ∧
    stagePos Stage.priceCast < stagePos Stage.posPriceFilter ∧
    stagePos Stage.posPriceFilter < stagePos Stage.minNightsFilter ∧
    stagePos Stage.minNightsFilter < stagePos Stage.intCast ∧
    stagePos Stage.intCast < stagePos Stage.naFlag ∧
    stagePos Stage.naFlag < stagePos Stage.imputeStage ∧
    stagePos Stage.imputeStage < stagePos Stage.writer ∧
    (∀ raw out, pipeline raw = some out →
      ∃ b ms,
        raw.select columns_to_keep = some b ∧
        imputerFit (addNaFlags (castIntegerColumns
          (min_nights_df (pos_prices_df (fixed_price_df b))))) impute_cols
          = some ms ∧
        out = imputerTransform ms (addNaFlags (castIntegerColumns
          (min_nights_df (pos_prices_df (fixed_price_df b)))))) := by
  refine ⟨rfl, by decide, by decide, by decide, by decide, by decide,
    by decide, by decide, ?_⟩
  exact pipeline_inv

/-- Witness for C5 (amended): the factorization applied to the concrete
run on `raw5`. -/
theorem C5_stage_order_witness :
    ∃ b ms,
      raw5.select columns_to_keep = some b ∧
      imputerFit (addNaFlags (castIntegerColumns
        (min_nights_df (pos_prices_df (fixed_price_df b))))) impute_cols
        = some ms ∧
      out5 = imputerTransform ms (addNaFlags (castIntegerColumns
        (min_nights_df (pos_prices_df (fixed_price_df b))))) :=
  C5_stage_order.2.2.2.2.2.2.2.2 raw5 out5 (by decide)
